import Mathlib

/-!
Verification of the core of the Text2SQL repository:
the SQL safety gate (`utils/helpers.py`), the RAG retrieval subsystem
(`core/rag_system.py`), and the orchestrator (`core/nsql_agent.py`).

Python strings are embedded as `List Char`; Python exceptions as an
`Except PyErr` result; external collaborators (database introspection and
execution, the sentence-transformer embedding model, the FAISS index, the
generative LLM) are parameters or oracle fields of an environment record.
-/

/-- Characters removed by Python `str.strip()` (ASCII whitespace). -/
def isPySpace (c : Char) : Bool :=
  c = ' ' || c = '\t' || c = '\n' || c = '\r' || c = '\x0b' || c = '\x0c'

/-- Python `str.lstrip()` on ASCII text. -/
def pyStripLeft (l : List Char) : List Char := l.dropWhile isPySpace

/-- Python `str.rstrip()` on ASCII text. -/
def pyStripRight (l : List Char) : List Char := (l.reverse.dropWhile isPySpace).reverse

/-- Python `str.strip()` on ASCII text. -/
def pyStrip (l : List Char) : List Char := pyStripRight (pyStripLeft l)

/-- Python `str.lower()` on one ASCII character. -/
def pyLowerChar (c : Char) : Char :=
  if 'A' ≤ c ∧ c ≤ 'Z' then Char.ofNat (c.toNat + 32) else c

/-- Python `str.lower()` on ASCII text. -/
def pyLower (l : List Char) : List Char := l.map pyLowerChar

/-- `helpers.sanitize_sql_query`: strip whitespace, drop one trailing
semicolon, and if a semicolon remains before the last character keep only
the (stripped) text before the first semicolon. -/
def sanitize_sql_query (sql_query : List Char) : List Char :=
  let s0 := pyStrip sql_query
  let s1 := if s0.getLast? = some ';' then s0.dropLast else s0
  if s1.dropLast.contains ';' then pyStrip (s1.takeWhile (fun c => c ≠ ';')) else s1

/-- The blacklist of `helpers.validate_sql_query`. -/
def dangerous_keywords : List (List Char) :=
  [ ("drop").toList, ("delete").toList, ("truncate").toList, ("alter").toList,
    ("create").toList, ("insert").toList, ("update").toList, ("grant").toList,
    ("revoke").toList, ("commit").toList, ("rollback").toList,
    ("savepoint").toList, ("merge").toList ]

/-- Regex word characters for `\b` (ASCII `[a-zA-Z0-9_]`). -/
def isWordChar (c : Char) : Bool :=
  ('a' ≤ c && c ≤ 'z') || ('A' ≤ c && c ≤ 'Z') || ('0' ≤ c && c ≤ '9') || c = '_'

/-- A `\b` boundary holds against an adjacent character (or text edge). -/
def boundaryOk : Option Char → Bool
  | none => true
  | some c => !isWordChar c

/-- Word boundary at the front of the remaining text. -/
def headBoundary (l : List Char) : Bool := boundaryOk l.head?

/-- Word boundary after the last character of `l` (edge if `l` is empty). -/
def lastBoundary (l : List Char) : Bool := boundaryOk l.getLast?

/-- Whole-word regex match (backslash-b, kw, backslash-b) exactly at the
current position: the previous character (if any) is not a word character,
`kw` is a prefix of the remaining text, and the character after it (if
any) is not a word character. -/
def wordMatchHere (kw : List Char) (prev : Option Char) (s : List Char) : Bool :=
  boundaryOk prev && kw.isPrefixOf s && headBoundary (s.drop kw.length)

/-- Scan of the whole-word regex search over all positions, carrying the
previous character. -/
def hasWordFrom (kw : List Char) : Option Char → List Char → Bool
  | prev, [] => wordMatchHere kw prev []
  | prev, c :: rest => wordMatchHere kw prev (c :: rest) || hasWordFrom kw (some c) rest

/-- Embeds re.search of backslash-b ++ kw ++ backslash-b on `s`, for an
all-letter keyword `kw`: true iff some position matches. -/
def regexSearchWord (kw s : List Char) : Bool := hasWordFrom kw none s

/-- `helpers.validate_sql_query`: lowercase and strip the query, then
reject when any blacklisted keyword occurs as a whole word. -/
def validate_sql_query (sql_query : List Char) : Bool :=
  let query_lower := pyStrip (pyLower sql_query)
  !(dangerous_keywords.any (fun kw => regexSearchWord kw query_lower))

/-- `helpers.validate_and_sanitize_query`: sanitize first, then validate
the sanitized text; return the pair `(is_valid, sanitized_query)`. -/
def validate_and_sanitize_query (sql_query : List Char) : Bool × List Char :=
  let sanitized_query := sanitize_sql_query sql_query
  (validate_sql_query sanitized_query, sanitized_query)

/-- Python exceptions relevant to this codebase. -/
inductive PyErr where
  | keyError : List Char → PyErr
  | indexError : PyErr
  | message : List Char → PyErr
deriving DecidableEq

/-- The apostrophe character, used by the text-description templates. -/
def apostChar : Char := Char.ofNat 39

/-- Python str(e) rendering used by the error-message f-strings. -/
def PyErr.str : PyErr → List Char
  | .keyError k => apostChar :: k ++ [apostChar]
  | .indexError => ("list index out of range").toList
  | .message m => m

/-- Wraps text in apostrophes, as the f-string templates do. -/
def pyQuote (s : List Char) : List Char := apostChar :: s ++ [apostChar]

/-- Python str() of a list of strings (its repr), as produced when an
f-string interpolates a list field. -/
def pyReprStrList (l : List (List Char)) : List Char :=
  ('[' :: List.intercalate ((", ").toList) (l.map pyQuote)) ++ [']']

/-- One column entry of a caller-supplied custom table description
(a dict with name, type and the optional keys the code reads with
defaults: nullable defaulting to True, primary_key defaulting falsy). -/
structure ColumnSpec where
  name : List Char
  type : List Char
  nullable : Bool
  primary_key : Bool
deriving DecidableEq

/-- One foreign-key entry of a table description. -/
structure ForeignKeyInfo where
  constrained_columns : List (List Char)
  referred_table : List Char
  referred_columns : List (List Char)
deriving DecidableEq

/-- A caller-supplied custom table description dict. `name` is optional
to model a dict lacking the name key; the other keys are read with
list defaults by dict.get. -/
structure CustomTableSpec where
  name : Option (List Char)
  columns : List ColumnSpec
  primary_keys : List (List Char)
  foreign_keys : List ForeignKeyInfo
deriving DecidableEq

/-- A built table descriptor as stored in RAGSystem.table_descriptions. -/
structure TableDescription where
  name : List Char
  columns : List ColumnSpec
  primary_keys : List (List Char)
  foreign_keys : List ForeignKeyInfo
  is_custom : Bool
  text_description : List Char
deriving DecidableEq

/-- Rendering of one column inside the custom-table text description:
name, type, then the primary-key and not-null annotations. -/
def renderCustomColumn (col : ColumnSpec) : List Char :=
  col.name ++ (" of type ").toList ++ col.type ++
  (if col.primary_key then (" (primary key)").toList else []) ++
  (if col.nullable = false then (" (not null)").toList else [])

/-- Rendering of one foreign-key entry inside a text description. -/
def renderForeignKey (fk : ForeignKeyInfo) : List Char :=
  pyQuote (pyReprStrList fk.constrained_columns) ++ (" references ").toList ++
  pyQuote (fk.referred_table ++ (".").toList ++ pyReprStrList fk.referred_columns)

/-- The text description built for a custom table (both in
_get_table_descriptions and in add_custom_table_descriptions): table
name, column list, then primary keys, then foreign keys; each section
only when its list is non-empty, with commas between items. -/
def buildCustomText (name : List Char) (cols : List ColumnSpec)
    (pks : List (List Char)) (fks : List ForeignKeyInfo) : List Char :=
  let t0 := ("Table ").toList ++ pyQuote name ++ (" has ").toList
  let t1 := if cols.isEmpty then t0 else
    t0 ++ (Nat.repr cols.length).toList ++ (" columns: ").toList ++
    List.intercalate ((", ").toList) (cols.map renderCustomColumn)
  let t2 := if pks.isEmpty then t1 else
    t1 ++ (". Primary keys: ").toList ++ List.intercalate ((", ").toList) pks ++ (".").toList
  if fks.isEmpty then t2 else
    t2 ++ (". It has foreign keys: ").toList ++
    List.intercalate ((", ").toList) (fks.map renderForeignKey)

/-- The descriptor built for a custom table whose name key is present. -/
def buildCustomDescriptionSome (n : List Char) (ct : CustomTableSpec) : TableDescription :=
  ⟨n, ct.columns, ct.primary_keys, ct.foreign_keys, true,
   buildCustomText n ct.columns ct.primary_keys ct.foreign_keys⟩

/-- Building a descriptor from one custom dict: reading the name key
raises KeyError when absent (the failure the spec names SchemaError). -/
def buildCustomDescription (ct : CustomTableSpec) : Except PyErr TableDescription :=
  match ct.name with
  | none => .error (.keyError (("name").toList))
  | some n => .ok (buildCustomDescriptionSome n ct)

/-- The loop appending built custom descriptors to an existing list,
stopping at the first raising entry. -/
def appendCustomLoop (descs : List TableDescription) :
    List CustomTableSpec → Except PyErr (List TableDescription)
  | [] => .ok descs
  | ct :: rest =>
    match buildCustomDescription ct with
    | .error e => .error e
    | .ok d => appendCustomLoop (descs ++ [d]) rest

/-- RAGSystem._get_table_descriptions. The live-table branch is driven by
database introspection (an external collaborator), so its already-built
descriptors are a parameter; the custom branch is embedded. An absent or
empty custom list adds nothing. -/
def get_table_descriptions (introspected : List TableDescription)
    (custom_table_descriptions : Option (List CustomTableSpec)) :
    Except PyErr (List TableDescription) :=
  appendCustomLoop introspected (custom_table_descriptions.getD [])

/-- The state RAGSystem keeps: the descriptor list and the FAISS index,
the latter modelled as the list of stored vectors (type `V`). -/
structure RAGState (V : Type) where
  table_descriptions : List TableDescription
  index : List V

/-- RAGSystem._build_index: embed every text_description (external
encoder `encode`), L2-normalize (external `normalize`), and store all
vectors in a fresh flat index, in list order. -/
def build_index {V : Type} (encode : List Char → V) (normalize : V → V)
    (descs : List TableDescription) : List V :=
  (descs.map (fun t => t.text_description)).map (fun d => normalize (encode d))

/-- RAGSystem.add_custom_table_descriptions: append a built descriptor
for each entry, then rebuild the whole index. -/
def add_custom_table_descriptions {V : Type} (encode : List Char → V) (normalize : V → V)
    (st : RAGState V) (custom : List CustomTableSpec) : Except PyErr (RAGState V) :=
  match appendCustomLoop st.table_descriptions custom with
  | .error e => .error e
  | .ok ds => .ok ⟨ds, build_index encode normalize ds⟩

/-- Python list indexing, including negative indices counted from the
end; out of range raises IndexError. -/
def pyIndex {α : Type} (l : List α) (i : Int) : Except PyErr α :=
  let j : Int := if i < 0 then (l.length : Int) + i else i
  if j < 0 then .error .indexError
  else
    match l[j.toNat]? with
    | some a => .ok a
    | none => .error .indexError

/-- Modelled external behavior of the flat FAISS index search: it returns
exactly k labels, the valid ones (the score-descending order of the n
stored vectors, given here as `order`) followed by -1 padding when the
index holds fewer than k vectors. -/
def faissPadIndices (n k : Nat) (order : List Nat) : List Int :=
  (order.take (min n k)).map Int.ofNat ++ List.replicate (k - min n k) (-1)

/-- The result-collection loop of retrieve_relevant_tables, iterating i
over range(min(len(indices), k)): read indices[i]; when it compares
below len(table_descriptions) fetch table_descriptions[idx] (Python
indexing) and append it paired with scores[i]. -/
def retrieveLoop (descs : List TableDescription) (idxs : List Int) (scores : List Rat)
    (acc : List (TableDescription × Rat)) :
    List Nat → Except PyErr (List (TableDescription × Rat))
  | [] => .ok acc
  | i :: rest =>
    match pyIndex idxs (Int.ofNat i) with
    | .error e => .error e
    | .ok idx =>
      if idx < (descs.length : Int) then
        match pyIndex descs idx with
        | .error e => .error e
        | .ok table_info =>
          match pyIndex scores (Int.ofNat i) with
          | .error e => .error e
          | .ok sc => retrieveLoop descs idxs scores (acc ++ [(table_info, sc)]) rest
      else retrieveLoop descs idxs scores acc rest

/-- RAGSystem.retrieve_relevant_tables. The query embedding and the FAISS
search it feeds are external, so the search output rows (indices and
scores, each of length k) are parameters. The float similarity scores are
opaque payloads, embedded as rationals. min_score is accepted and, as in
the code, never used. -/
def retrieve_relevant_tables (descs : List TableDescription)
    (idxs : List Int) (scores : List Rat) (k : Nat) (min_score : Rat) :
    Except PyErr (List (TableDescription × Rat)) :=
  retrieveLoop descs idxs scores [] (List.range (min idxs.length k))

/-- Rows-and-columns result of a database execution, the external
capability behind validate_and_execute. Each row is already rendered the
way str(tuple(row)) renders it. -/
structure DBResult where
  columns : List (List Char)
  rows : List (List Char)
deriving DecidableEq

/-- Oracle environment for one process_query run: the descriptor list
and the FAISS search output for the query (retrieval stage), the LLM
response (generation stage), and the database execution capability. -/
structure AgentEnv where
  table_descriptions : List TableDescription
  search_indices : List Int
  search_scores : List Rat
  generate_sql : Except PyErr (List Char)
  db_exec : List Char → Except PyErr DBResult

/-- NSQLAgent.validate_and_execute: reject text starting with delete or
drop after lowering and stripping, otherwise execute and format; every
execution failure is caught here and rendered as a string. -/
def validate_and_execute (env : AgentEnv) (sql_query : List Char) : List Char :=
  let sql_query_lower := pyStrip (pyLower sql_query)
  if (("delete").toList).isPrefixOf sql_query_lower
      || (("drop").toList).isPrefixOf sql_query_lower then
    ("Only SELECT statements are allowed: ").toList ++ sql_query
  else
    match env.db_exec sql_query with
    | .error e => ("Error executing SQL query: ").toList ++ e.str
    | .ok res =>
      if res.rows.isEmpty then ("No results found.").toList
      else
        ("Columns: ").toList ++ List.intercalate ((", ").toList) res.columns
          ++ ("\n").toList
          ++ List.replicate 50 '-' ++ ("\n").toList
          ++ (res.rows.map (fun r => r ++ ("\n").toList)).flatten

/-- The body of NSQLAgent.process_query before its outer try/except:
retrieval, the empty-retrieval early return, generation, the safety
gate, then execution. The second component records whether
validate_and_execute was invoked. -/
def process_query_body (env : AgentEnv) : Except PyErr (List Char) × Bool :=
  match retrieve_relevant_tables env.table_descriptions env.search_indices
      env.search_scores 3 (1 / 4) with
  | .error e => (.error e, false)
  | .ok relevant_tables =>
    if relevant_tables.isEmpty then
      (.ok (("No relevant tables found for the given query.").toList), false)
    else
      match env.generate_sql with
      | .error e => (.error e, false)
      | .ok sql_query =>
        let vs := validate_and_sanitize_query sql_query
        if vs.1 then
          (.ok (("Generated SQL: ").toList ++ vs.2 ++ ("\n\nResult:\n").toList
            ++ validate_and_execute env vs.2), true)
        else
          (.ok (("Generated SQL query contains potentially dangerous operations: ").toList
            ++ sql_query), false)

/-- NSQLAgent.process_query: the body wrapped in the outer except that
renders any raised exception as an error string. -/
def process_query (env : AgentEnv) : Except PyErr (List Char) × Bool :=
  match process_query_body env with
  | (.error e, ex) => (.ok (("Error processing query: ").toList ++ e.str), ex)
  | (.ok s, ex) => (.ok s, ex)

/-- A sample live descriptor used by concrete witnesses. -/
def testDesc : TableDescription :=
  ⟨("employees").toList, [], [], [], false, ("Table employees").toList⟩

/-- A custom descriptor dict lacking the name key, used by witnesses. -/
def noNameSpec : CustomTableSpec := ⟨none, [], [], []⟩

/-- A well-formed custom descriptor dict, used by witnesses. -/
def namedSpec : CustomTableSpec := ⟨some (("projects").toList), [], [], []⟩

/-- A concrete oracle environment used by witnesses: one descriptor, a
successful retrieval, and an LLM response that the gate must reject. -/
def testEnv : AgentEnv :=
  ⟨[testDesc], [Int.ofNat 0], [1], .ok (("DROP TABLE employees").toList),
   fun _ => .error .indexError⟩

/-! Helper lemmas about the embedded Python string primitives. -/

theorem dropWhile_head_not {α : Type} (p : α → Bool) (l : List α) (c : α)
    (h : (l.dropWhile p).head? = some c) : p c = false := by
  induction l with
  | nil => simp [List.dropWhile] at h
  | cons a r ih =>
    rw [List.dropWhile_cons] at h
    cases hp : p a with
    | true => rw [hp, if_pos rfl] at h; exact ih h
    | false =>
      rw [hp] at h
      simp at h
      rw [← h]
      exact hp

theorem dropWhile_idem {α : Type} (p : α → Bool) (l : List α) :
    (l.dropWhile p).dropWhile p = l.dropWhile p := by
  cases h : l.dropWhile p with
  | nil => rfl
  | cons c r =>
    have hc : p c = false := dropWhile_head_not p l c (by rw [h]; rfl)
    rw [List.dropWhile_cons, hc]
    simp

theorem pyStripRight_cons (c : Char) (r : List Char) (hc : isPySpace c = false) :
    pyStripRight (c :: r) = c :: pyStripRight r := by
  unfold pyStripRight
  rw [List.reverse_cons, List.dropWhile_append]
  by_cases h : (r.reverse.dropWhile isPySpace).isEmpty
  · rw [if_pos h]
    rw [List.isEmpty_iff] at h
    simp [List.dropWhile_cons, hc, h]
  · rw [if_neg h, List.reverse_append]
    simp

theorem pyStripRight_decomp (l : List Char) :
    ∃ t, l = pyStripRight l ++ t ∧ ∀ c ∈ t, isPySpace c = true := by
  have h := congrArg List.reverse (List.takeWhile_append_dropWhile isPySpace l.reverse)
  rw [List.reverse_append, List.reverse_reverse] at h
  refine ⟨(l.reverse.takeWhile isPySpace).reverse, h.symm, ?_⟩
  intro c hc
  exact List.mem_takeWhile_imp (List.mem_reverse.mp hc)

theorem pyStripLeft_decomp (l : List Char) :
    ∃ a, l = a ++ pyStripLeft l ∧ ∀ c ∈ a, isPySpace c = true :=
  ⟨l.takeWhile isPySpace, (List.takeWhile_append_dropWhile isPySpace l).symm,
   fun _ hc => List.mem_takeWhile_imp hc⟩

theorem pyStrip_decomp (l : List Char) :
    ∃ a t, l = a ++ pyStrip l ++ t ∧ (∀ c ∈ a, isPySpace c = true) ∧
      (∀ c ∈ t, isPySpace c = true) := by
  obtain ⟨a, ha1, ha2⟩ := pyStripLeft_decomp l
  obtain ⟨t, ht1, ht2⟩ := pyStripRight_decomp (pyStripLeft l)
  refine ⟨a, t, ?_, ha2, ht2⟩
  rw [List.append_assoc]
  calc l = a ++ pyStripLeft l := ha1
    _ = a ++ (pyStrip l ++ t) := congrArg (a ++ ·) ht1

theorem mem_pyStrip {l : List Char} {c : Char} (h : c ∈ pyStrip l) : c ∈ l := by
  obtain ⟨a, t, hl, -, -⟩ := pyStrip_decomp l
  rw [hl]
  simp only [List.mem_append]
  exact Or.inl (Or.inr h)

theorem pyStripLeft_cons_of_not_space (c : Char) (r : List Char) (hc : isPySpace c = false) :
    pyStripLeft (c :: r) = c :: r := by
  simp [pyStripLeft, List.dropWhile_cons, hc]

theorem pyStripRight_idem (l : List Char) : pyStripRight (pyStripRight l) = pyStripRight l := by
  unfold pyStripRight
  rw [List.reverse_reverse, dropWhile_idem]

theorem pyStrip_idem (l : List Char) : pyStrip (pyStrip l) = pyStrip l := by
  show pyStripRight (pyStripLeft (pyStrip l)) = pyStrip l
  cases hx : pyStrip l with
  | nil => rfl
  | cons c r =>
    have hhead : (pyStripLeft l).head? = some c := by
      obtain ⟨t, ht1, -⟩ := pyStripRight_decomp (pyStripLeft l)
      have := congrArg List.head? ht1
      rw [show pyStripRight (pyStripLeft l) = pyStrip l from rfl, hx] at this
      simpa using this
    have hc : isPySpace c = false := dropWhile_head_not isPySpace l c hhead
    rw [pyStripLeft_cons_of_not_space c r hc, ← hx]
    exact pyStripRight_idem (pyStripLeft l)

theorem pyStrip_append_space_left (a l : List Char) (ha : ∀ c ∈ a, isPySpace c = true) :
    pyStrip (a ++ l) = pyStrip l := by
  show pyStripRight (pyStripLeft (a ++ l)) = pyStripRight (pyStripLeft l)
  have : pyStripLeft (a ++ l) = pyStripLeft l := by
    unfold pyStripLeft
    rw [List.dropWhile_append,
      if_pos (by rw [List.isEmpty_iff, List.dropWhile_eq_nil_iff]; exact ha)]
  rw [this]

theorem pyStrip_eq_nil_all_space {l : List Char} (h : pyStrip l = []) :
    ∀ c ∈ l, isPySpace c = true := by
  obtain ⟨a, t, hl, ha, ht⟩ := pyStrip_decomp l
  intro c hc
  rw [hl, h] at hc
  simp only [List.append_nil, List.mem_append] at hc
  rcases hc with hc | hc
  · exact ha c hc
  · exact ht c hc

theorem takeWhile_append_all {α : Type} (p : α → Bool) (a x : List α)
    (ha : ∀ c ∈ a, p c = true) : (a ++ x).takeWhile p = a ++ x.takeWhile p := by
  induction a with
  | nil => rfl
  | cons c a ih =>
    rw [List.cons_append, List.takeWhile_cons, if_pos (ha c (List.mem_cons_self c a)),
      ih (fun d hd => ha d (List.mem_cons_of_mem c hd)), List.cons_append]

theorem takeWhile_append_stop {α : Type} (p : α → Bool) (l m : List α)
    (h : ∃ x ∈ l, p x = false) : (l ++ m).takeWhile p = l.takeWhile p := by
  induction l with
  | nil =>
    obtain ⟨x, hx, -⟩ := h
    simp at hx
  | cons c l ih =>
    rw [List.cons_append, List.takeWhile_cons, List.takeWhile_cons]
    cases hc : p c with
    | false => rfl
    | true =>
      obtain ⟨x, hx, hpx⟩ := h
      rcases List.mem_cons.mp hx with rfl | hx2
      · rw [hc] at hpx; simp at hpx
      · rw [if_pos rfl, if_pos rfl, ih ⟨x, hx2, hpx⟩]

theorem getLast?_cons_of_ne {α : Type} (c : α) (t : List α) (h : t ≠ []) :
    (c :: t).getLast? = t.getLast? := by
  cases ht : t.getLast? with
  | none => exact absurd (List.getLast?_eq_none_iff.mp ht) h
  | some x =>
    obtain ⟨ys, hys⟩ := List.getLast?_eq_some_iff.mp ht
    rw [hys, ← List.cons_append, List.getLast?_concat]

theorem mem_dropLast_or_getLast? {α : Type} {l : List α} {c : α} (h : c ∈ l) :
    c ∈ l.dropLast ∨ l.getLast? = some c := by
  rcases eq_or_ne l [] with rfl | hne
  · simp at h
  · have hd := List.dropLast_append_getLast hne
    rw [← hd] at h
    rcases List.mem_append.mp h with h1 | h2
    · exact Or.inl h1
    · right
      rw [List.mem_singleton] at h2
      rw [h2]
      exact List.getLast?_eq_getLast l hne

theorem space_decide_ne_semicolon {c : Char} (hc : isPySpace c = true) :
    decide (c ≠ ';') = true := by
  simp only [isPySpace, Bool.or_eq_true, decide_eq_true_eq] at hc
  rcases hc with ((((h | h) | h) | h) | h) | h <;> subst h <;> decide

theorem semicolon_not_space : isPySpace ';' = false := by decide

theorem sanitize_sql_query_unfold (q : List Char) :
    sanitize_sql_query q =
      if ((if (pyStrip q).getLast? = some ';' then (pyStrip q).dropLast else pyStrip q).dropLast).contains ';'
      then pyStrip ((if (pyStrip q).getLast? = some ';' then (pyStrip q).dropLast else pyStrip q).takeWhile (fun c => c ≠ ';'))
      else (if (pyStrip q).getLast? = some ';' then (pyStrip q).dropLast else pyStrip q) := rfl

theorem sanitize_semicolon_head (q t : List Char) (hstrip : pyStrip q = ';' :: t)
    (h3 : pyStrip q ≠ [';', ';']) : sanitize_sql_query q = [] := by
  cases t with
  | nil =>
    have e1 : (pyStrip q).getLast? = some ';' := by rw [hstrip]; rfl
    have hu := sanitize_sql_query_unfold q
    rw [if_pos e1, hstrip] at hu
    simpa using hu
  | cons x t' =>
    have htne : (x :: t') ≠ ([] : List Char) := by simp
    have e0 : (pyStrip q).getLast? = (x :: t').getLast? := by
      rw [hstrip]
      exact getLast?_cons_of_ne ';' (x :: t') htne
    by_cases hL : (x :: t').getLast? = some ';'
    · obtain ⟨ys, hys⟩ := List.getLast?_eq_some_iff.mp hL
      cases ys with
      | nil => exact absurd (by rw [hstrip, hys]; simp) h3
      | cons y ys' =>
        have e1 : (pyStrip q).getLast? = some ';' := by rw [e0, hL]
        have hu := sanitize_sql_query_unfold q
        rw [if_pos e1, hstrip, hys, ← List.cons_append,
          List.dropLast_concat] at hu
        have e4 : ((';' :: y :: ys').dropLast).contains ';' = true := by
          rw [List.dropLast_cons_of_ne_nil (by simp)]
          simp
        rw [if_pos e4, List.takeWhile_cons, if_neg (by decide)] at hu
        simpa using hu
    · have e1 : ¬((pyStrip q).getLast? = some ';') := by rw [e0]; exact hL
      have hu := sanitize_sql_query_unfold q
      rw [if_neg e1, hstrip] at hu
      have e4 : ((';' :: x :: t').dropLast).contains ';' = true := by
        rw [List.dropLast_cons_of_ne_nil htne]
        simp
      rw [if_pos e4, List.takeWhile_cons, if_neg (by decide)] at hu
      simpa using hu

/-! The claim theorems. -/

/-- C3, counterexample: sanitize_sql_query is not idempotent as claimed
for all strings; on the input a;; the first pass yields a; (only the
final trailing semicolon is removed, and the remaining semicolon is not
before the last character) while a second pass yields a. -/
theorem claim_C3_cex :
    sanitize_sql_query (("a;;").toList) = ('a' :: ';' :: []) ∧
    sanitize_sql_query (sanitize_sql_query (("a;;").toList)) = ('a' :: []) ∧
    sanitize_sql_query (sanitize_sql_query (("a;;").toList))
      ≠ sanitize_sql_query (("a;;").toList) := by decide

/-- C3 (amended): sanitize_sql_query is idempotent on every input whose
stripped form does not end in a semicolon. (The unrestricted claim fails:
see the counterexample, where a stripped input ending in two semicolons
keeps one trailing semicolon after the first pass.) -/
theorem claim_C3_amended (q : List Char) (h : (pyStrip q).getLast? ≠ some ';') :
    sanitize_sql_query (sanitize_sql_query q) = sanitize_sql_query q := by
  have hu := sanitize_sql_query_unfold q
  rw [if_neg h] at hu
  by_cases hcon : (pyStrip q).dropLast.contains ';' = true
  · rw [if_pos hcon] at hu
    have hnos : ';' ∉ pyStrip ((pyStrip q).takeWhile (fun c => c ≠ ';')) := by
      intro hmem
      have h2 := List.mem_takeWhile_imp (mem_pyStrip hmem)
      simp at h2
    have hps : pyStrip (pyStrip ((pyStrip q).takeWhile (fun c => c ≠ ';')))
        = pyStrip ((pyStrip q).takeWhile (fun c => c ≠ ';')) := pyStrip_idem _
    rw [hu]
    have hu2 := sanitize_sql_query_unfold (pyStrip ((pyStrip q).takeWhile (fun c => c ≠ ';')))
    rw [hps] at hu2
    have hlast : (pyStrip ((pyStrip q).takeWhile (fun c => c ≠ ';'))).getLast? ≠ some ';' := by
      intro hl
      obtain ⟨ys, hys⟩ := List.getLast?_eq_some_iff.mp hl
      exact hnos (by rw [hys]; simp)
    rw [if_neg hlast] at hu2
    have hcon2 : ¬((pyStrip ((pyStrip q).takeWhile (fun c => c ≠ ';'))).dropLast.contains ';' = true) := by
      intro hcc
      exact hnos ((List.dropLast_sublist _).subset (List.elem_iff.mp hcc))
    rw [if_neg hcon2] at hu2
    exact hu2
  · rw [if_neg hcon] at hu
    have hnos : ';' ∉ pyStrip q := by
      intro hmem
      rcases mem_dropLast_or_getLast? hmem with h1 | h2
      · exact hcon (List.elem_iff.mpr h1)
      · exact h h2
    rw [hu]
    have hu2 := sanitize_sql_query_unfold (pyStrip q)
    rw [pyStrip_idem] at hu2
    rw [if_neg h, if_neg hcon] at hu2
    exact hu2

/-- C3, witness: a concrete instantiation of the amended idempotence
theorem on the input SELECT 1. -/
theorem claim_C3_witness :
    (pyStrip (("SELECT 1").toList)).getLast? ≠ some ';' ∧
    sanitize_sql_query (sanitize_sql_query (("SELECT 1").toList))
      = sanitize_sql_query (("SELECT 1").toList) :=
  ⟨by decide, claim_C3_amended (("SELECT 1").toList) (by decide)⟩

/-- C4, counterexample: the input a-space-semicolon-space contains a
semicolon not at the very end, yet sanitize_sql_query keeps the trailing
space (it only strips one trailing semicolon and never re-trims), so the
result differs from the trimmed text before the first semicolon. -/
theorem claim_C4_cex :
    ((("a ; ").toList).dropLast).contains ';' = true ∧
    sanitize_sql_query (("a ; ").toList) = ('a' :: ' ' :: []) ∧
    pyStrip ((("a ; ").toList).takeWhile (fun c => c ≠ ';')) = ('a' :: []) ∧
    sanitize_sql_query (("a ; ").toList)
      ≠ pyStrip ((("a ; ").toList).takeWhile (fun c => c ≠ ';')) := by decide

/-- C4 (amended): whenever, after stripping whitespace and removing a
single trailing semicolon, the remaining text still contains a semicolon
before its last character, sanitize_sql_query returns the text before
the first semicolon, trimmed of surrounding whitespace. (The original
claim, conditioned only on a semicolon not at the very end of the raw
input, fails: see the counterexample.) -/
theorem claim_C4_amended (q : List Char)
    (h : ((if (pyStrip q).getLast? = some ';' then (pyStrip q).dropLast else pyStrip q).dropLast).contains ';' = true) :
    sanitize_sql_query q = pyStrip (q.takeWhile (fun c => c ≠ ';')) := by
  have hu := sanitize_sql_query_unfold q
  rw [if_pos h] at hu
  rw [hu]
  have hsem_s0 : ';' ∈ pyStrip q := by
    by_cases hL : (pyStrip q).getLast? = some ';'
    · rw [if_pos hL] at h
      exact (List.dropLast_sublist _).subset
        ((List.dropLast_sublist _).subset (List.elem_iff.mp h))
    · rw [if_neg hL] at h
      exact (List.dropLast_sublist _).subset (List.elem_iff.mp h)
  have step1 : (if (pyStrip q).getLast? = some ';' then (pyStrip q).dropLast else pyStrip q).takeWhile (fun c => c ≠ ';')
      = (pyStrip q).takeWhile (fun c => c ≠ ';') := by
    by_cases hL : (pyStrip q).getLast? = some ';'
    · rw [if_pos hL]
      obtain ⟨ys, hys⟩ := List.getLast?_eq_some_iff.mp hL
      have hdl : (pyStrip q).dropLast = ys := by rw [hys, List.dropLast_concat]
      have hsem_ys : ';' ∈ ys := by
        rw [if_pos hL, hdl] at h
        exact (List.dropLast_sublist _).subset (List.elem_iff.mp h)
      rw [hdl, hys, takeWhile_append_stop _ ys _ ⟨';', hsem_ys, by decide⟩]
    · rw [if_neg hL]
  rw [step1]
  obtain ⟨a, t, hq, ha, ht⟩ := pyStrip_decomp q
  have step2 : q.takeWhile (fun c => c ≠ ';') = a ++ (pyStrip q).takeWhile (fun c => c ≠ ';') := by
    conv_lhs => rw [hq]
    rw [List.append_assoc,
      takeWhile_append_all _ a _ (fun c hc => space_decide_ne_semicolon (ha c hc)),
      takeWhile_append_stop _ (pyStrip q) t ⟨';', hsem_s0, by decide⟩]
  rw [step2, pyStrip_append_space_left a _ ha]

/-- C4, witness: a concrete instantiation of the amended truncation
theorem on a two-statement input. -/
theorem claim_C4_witness :
    ((if (pyStrip (("SELECT 1; DROP TABLE employees").toList)).getLast? = some ';'
        then (pyStrip (("SELECT 1; DROP TABLE employees").toList)).dropLast
        else pyStrip (("SELECT 1; DROP TABLE employees").toList)).dropLast).contains ';' = true ∧
    sanitize_sql_query (("SELECT 1; DROP TABLE employees").toList)
      = pyStrip ((("SELECT 1; DROP TABLE employees").toList).takeWhile (fun c => c ≠ ';')) :=
  ⟨by decide, claim_C4_amended (("SELECT 1; DROP TABLE employees").toList) (by decide)⟩

/-- C10, counterexample: on the input of two semicolons the text before
the first terminator is empty after trimming, but validate_and_sanitize_query
returns (true, one semicolon), not (true, empty). -/
theorem claim_C10_cex :
    (((";;").toList).contains ';' = true) ∧
    pyStrip (((";;").toList).takeWhile (fun c => c ≠ ';')) = [] ∧
    validate_and_sanitize_query ((";;").toList) = (true, (";").toList) ∧
    validate_and_sanitize_query ((";;").toList) ≠ (true, []) := by decide

/-- C10 (amended): for every input containing a semicolon whose text
before the first semicolon is empty after trimming, and whose stripped
form is not exactly two semicolons, validate_and_sanitize_query returns
(true, empty): the safety gate approves the empty statement. (In the
excluded two-semicolon corner it still approves, but the sanitized text
is a single semicolon: see the counterexample.) -/
theorem claim_C10_amended (q : List Char)
    (h1 : q.contains ';' = true)
    (h2 : pyStrip (q.takeWhile (fun c => c ≠ ';')) = [])
    (h3 : pyStrip q ≠ [';', ';']) :
    validate_and_sanitize_query q = (true, []) := by
  have hall : ∀ c ∈ q.takeWhile (fun c => c ≠ ';'), isPySpace c = true :=
    pyStrip_eq_nil_all_space h2
  have hdw : q.dropWhile (fun c => c ≠ ';') ≠ [] := by
    intro hdn
    have htw : q.takeWhile (fun c => c ≠ ';') = q := by
      have hq := List.takeWhile_append_dropWhile (fun c => decide (c ≠ ';')) q
      rw [hdn, List.append_nil] at hq
      exact hq
    have hmem : ';' ∈ q.takeWhile (fun c => c ≠ ';') := by
      rw [htw]
      exact List.elem_iff.mp h1
    have := List.mem_takeWhile_imp hmem
    simp at this
  have hsan : sanitize_sql_query q = [] := by
    cases hdr : q.dropWhile (fun c => c ≠ ';') with
    | nil => exact absurd hdr hdw
    | cons d r =>
      have hd : (fun c => decide (c ≠ ';')) d = false :=
        dropWhile_head_not _ q d (by rw [hdr]; rfl)
      have hd2 : d = ';' := by simpa using hd
      have hq : q = q.takeWhile (fun c => c ≠ ';') ++ ';' :: r := by
        have hq0 := List.takeWhile_append_dropWhile (fun c => decide (c ≠ ';')) q
        rw [hdr, hd2] at hq0
        exact hq0.symm
      have hstrip : pyStrip q = ';' :: pyStripRight r := by
        conv_lhs => rw [hq]
        rw [pyStrip_append_space_left _ _ hall]
        show pyStripRight (pyStripLeft (';' :: r)) = _
        rw [pyStripLeft_cons_of_not_space ';' r semicolon_not_space,
          pyStripRight_cons ';' r semicolon_not_space]
      exact sanitize_semicolon_head q (pyStripRight r) hstrip h3
  show (validate_sql_query (sanitize_sql_query q), sanitize_sql_query q) = (true, [])
  rw [hsan]
  decide

/-- C10, witness: a concrete instantiation of the amended theorem on the
input of a semicolon followed by a DROP statement: the gate approves the
empty first statement. -/
theorem claim_C10_witness :
    ((("; DROP TABLE employees").toList).contains ';' = true) ∧
    pyStrip ((("; DROP TABLE employees").toList).takeWhile (fun c => c ≠ ';')) = [] ∧
    pyStrip (("; DROP TABLE employees").toList) ≠ [';', ';'] ∧
    validate_and_sanitize_query (("; DROP TABLE employees").toList) = (true, []) :=
  ⟨by decide, by decide, by decide,
   claim_C10_amended (("; DROP TABLE employees").toList) (by decide) (by decide) (by decide)⟩

theorem getLast?_append_of_ne {α : Type} (x y : List α) (h : y ≠ []) :
    (x ++ y).getLast? = y.getLast? := by
  rw [List.getLast?_append]
  cases hy : y.getLast? with
  | none => exact absurd (List.getLast?_eq_none_iff.mp hy) h
  | some d => rfl

theorem hasWordFrom_of_here (kw : List Char) (prev : Option Char) (s : List Char)
    (h : wordMatchHere kw prev s = true) : hasWordFrom kw prev s = true := by
  cases s with
  | nil => exact h
  | cons c rest => simp only [hasWordFrom, h, Bool.true_or]

theorem hasWordFrom_append (kw b : List Char) (hb : headBoundary b = true) :
    ∀ (a : List Char) (prev : Option Char), boundaryOk ((a.getLast?).or prev) = true →
      hasWordFrom kw prev (a ++ (kw ++ b)) = true := by
  intro a
  induction a with
  | nil =>
    intro prev hpv
    rw [List.getLast?_nil, Option.none_or] at hpv
    apply hasWordFrom_of_here
    unfold wordMatchHere
    rw [List.nil_append, List.drop_left, hpv,
      List.isPrefixOf_iff_prefix.mpr (List.prefix_append kw b), hb]
    rfl
  | cons c a ih =>
    intro prev hpv
    rw [List.cons_append]
    simp only [hasWordFrom]
    have hrec : hasWordFrom kw (some c) (a ++ (kw ++ b)) = true := by
      apply ih
      cases ha : a.getLast? with
      | none =>
        have ha2 : a = [] := List.getLast?_eq_none_iff.mp ha
        subst ha2
        simpa using hpv
      | some d =>
        have hane : a ≠ [] := by
          intro h0
          rw [h0, List.getLast?_nil] at ha
          cases ha
        rw [getLast?_cons_of_ne c a hane, ha] at hpv
        exact hpv
    rw [hrec, Bool.or_true]

theorem pyStrip_word_decomp (kw : List Char) (hne : kw ≠ [])
    (hns : ∀ c ∈ kw, isPySpace c = false) (a b l : List Char)
    (hl : l = a ++ (kw ++ b)) (ha : lastBoundary a = true) (hb : headBoundary b = true) :
    ∃ a2 b2, pyStrip l = a2 ++ (kw ++ b2) ∧ lastBoundary a2 = true ∧ headBoundary b2 = true := by
  obtain ⟨k0, kr, hkw⟩ : ∃ k0 kr, kw = k0 :: kr := by
    cases kw with
    | nil => exact absurd rfl hne
    | cons k0 kr => exact ⟨k0, kr, rfl⟩
  have hk0 : isPySpace k0 = false := hns k0 (by rw [hkw]; exact List.mem_cons_self k0 kr)
  have hstep1 : ∃ a1, pyStripLeft l = a1 ++ (kw ++ b) ∧ lastBoundary a1 = true := by
    rw [hl]
    unfold pyStripLeft
    rw [List.dropWhile_append]
    by_cases hdv : (a.dropWhile isPySpace).isEmpty
    · rw [if_pos hdv]
      refine ⟨[], ?_, rfl⟩
      rw [hkw, List.cons_append, List.dropWhile_cons, hk0]
      simp
    · rw [if_neg hdv]
      refine ⟨a.dropWhile isPySpace, rfl, ?_⟩
      have hane : a.dropWhile isPySpace ≠ [] := by
        intro h0
        exact hdv (by rw [List.isEmpty_iff]; exact h0)
      have hgl := getLast?_append_of_ne (a.takeWhile isPySpace) (a.dropWhile isPySpace) hane
      rw [List.takeWhile_append_dropWhile] at hgl
      unfold lastBoundary at ha ⊢
      rw [← hgl]
      exact ha
  obtain ⟨a1, h1, hba1⟩ := hstep1
  have hstep2 : ∃ b2, pyStripRight (a1 ++ (kw ++ b)) = a1 ++ (kw ++ b2) ∧ headBoundary b2 = true := by
    unfold pyStripRight
    rw [List.reverse_append, List.reverse_append, List.append_assoc, List.dropWhile_append]
    by_cases hdv : (b.reverse.dropWhile isPySpace).isEmpty
    · rw [if_pos hdv]
      refine ⟨[], ?_, rfl⟩
      obtain ⟨kl, klr, hkrev⟩ : ∃ kl klr, kw.reverse = kl :: klr := by
        cases hkr : kw.reverse with
        | nil => exact absurd (List.reverse_eq_nil_iff.mp hkr) hne
        | cons kl klr => exact ⟨kl, klr, rfl⟩
      have hkl : isPySpace kl = false := by
        refine hns kl (List.mem_reverse.mp ?_)
        rw [hkrev]
        exact List.mem_cons_self kl klr
      rw [hkrev, List.cons_append, List.dropWhile_cons, hkl]
      rw [if_neg (by simp), ← List.cons_append, ← hkrev, List.reverse_append,
        List.reverse_reverse, List.reverse_reverse]
      simp
    · rw [if_neg hdv]
      refine ⟨(b.reverse.dropWhile isPySpace).reverse, ?_, ?_⟩
      · rw [List.reverse_append, List.reverse_append, List.reverse_reverse, List.reverse_reverse,
          List.append_assoc]
      · have hne2 : (b.reverse.dropWhile isPySpace).reverse ≠ [] := by
          intro h0
          exact hdv (by rw [List.isEmpty_iff, ← List.reverse_eq_nil_iff]; exact h0)
        have hbdecomp := congrArg List.reverse (List.takeWhile_append_dropWhile isPySpace b.reverse)
        rw [List.reverse_append, List.reverse_reverse] at hbdecomp
        have hhead : b.head? = (b.reverse.dropWhile isPySpace).reverse.head? := by
          conv_lhs => rw [← hbdecomp]
          rw [List.head?_append]
          cases hh : (b.reverse.dropWhile isPySpace).reverse.head? with
          | none => exact absurd (List.head?_eq_none_iff.mp hh) hne2
          | some d => rfl
        unfold headBoundary at hb ⊢
        rw [← hhead]
        exact hb
  obtain ⟨b2, h2, hbb2⟩ := hstep2
  refine ⟨a1, b2, ?_, hba1, hbb2⟩
  rw [show pyStrip l = pyStripRight (pyStripLeft l) from rfl, h1, h2]

theorem dangerous_keywords_wf :
    ∀ kw ∈ dangerous_keywords, kw ≠ [] ∧ ∀ c ∈ kw, isPySpace c = false := by decide

/-- C5: for each keyword in the blacklist, any string containing it as a
standalone word (whole-word occurrence in the lowercased text, with
non-word characters or text edges on both sides) is rejected by
validate_sql_query, regardless of letter case; and the plain select
query is accepted. -/
theorem claim_C5 (kw : List Char) (hkw : kw ∈ dangerous_keywords)
    (s a b : List Char) (hdec : pyLower s = a ++ (kw ++ b))
    (ha : lastBoundary a = true) (hb : headBoundary b = true) :
    validate_sql_query s = false ∧ validate_sql_query (("select * from t").toList) = true := by
  refine ⟨?_, by decide⟩
  obtain ⟨hne, hns⟩ := dangerous_keywords_wf kw hkw
  obtain ⟨a2, b2, hsd, hba2, hbb2⟩ :=
    pyStrip_word_decomp kw hne hns a b (pyLower s) hdec ha hb
  show (!(dangerous_keywords.any fun kw2 => regexSearchWord kw2 (pyStrip (pyLower s)))) = false
  have hany : (dangerous_keywords.any fun kw2 => regexSearchWord kw2 (pyStrip (pyLower s))) = true := by
    rw [List.any_eq_true]
    refine ⟨kw, hkw, ?_⟩
    show hasWordFrom kw none (pyStrip (pyLower s)) = true
    rw [hsd]
    refine hasWordFrom_append kw b2 hbb2 a2 none ?_
    rw [Option.or_none]
    exact hba2
  rw [hany]
  rfl

/-- C5, witness: the keyword drop inside a mixed-case sentence is
rejected, and the plain select query is accepted. -/
theorem claim_C5_witness :
    validate_sql_query (("Please DROP the table").toList) = false ∧
    validate_sql_query (("select * from t").toList) = true :=
  claim_C5 (("drop").toList) (by decide) (("Please DROP the table").toList)
    (("please ").toList) ((" the table").toList) (by decide) (by decide) (by decide)

/-- C6: the min_score parameter of retrieve_relevant_tables is never
applied; for any two values of min_score the returned sequence of
descriptors and scores is identical. -/
theorem claim_C6 (descs : List TableDescription) (idxs : List Int) (scores : List Rat)
    (k : Nat) (ms1 ms2 : Rat) :
    retrieve_relevant_tables descs idxs scores k ms1
      = retrieve_relevant_tables descs idxs scores k ms2 := rfl

/-- C2, evaluation at the failing input: with a single descriptor in the
index and the default k = 3, the FAISS search pads its label row with -1;
the guard idx below len(table_descriptions) passes for -1, and Python
negative indexing returns the last descriptor, so the code returns three
results (the lone descriptor three times) instead of one. With an empty
descriptor list the -1 lookup raises IndexError instead of returning an
empty sequence. -/
theorem claim_C2_eval :
    retrieve_relevant_tables [testDesc] (faissPadIndices 1 3 [0]) [1, 0, 0] 3 (1 / 4)
      = .ok [(testDesc, 1), (testDesc, 0), (testDesc, 0)] ∧
    retrieve_relevant_tables [] (faissPadIndices 0 3 []) [1, 0, 0] 3 (1 / 4)
      = .error .indexError := ⟨rfl, rfl⟩

theorem appendCustomLoop_error (custom : List CustomTableSpec) :
    ∀ descs, (∃ ct ∈ custom, ct.name = none) →
      appendCustomLoop descs custom = .error (.keyError (("name").toList)) := by
  induction custom with
  | nil =>
    intro descs h
    obtain ⟨ct, hct, -⟩ := h
    simp at hct
  | cons ct rest ih =>
    intro descs h
    cases hn : ct.name with
    | none => simp only [appendCustomLoop, buildCustomDescription, hn]
    | some n =>
      simp only [appendCustomLoop, buildCustomDescription, hn]
      apply ih
      obtain ⟨c, hc, hcn⟩ := h
      rcases List.mem_cons.mp hc with rfl | hc2
      · rw [hn] at hcn; cases hcn
      · exact ⟨c, hc2, hcn⟩

theorem appendCustomLoop_ok (custom : List CustomTableSpec) :
    ∀ descs, (∀ ct ∈ custom, ct.name.isSome) →
      ∃ ds, appendCustomLoop descs custom = .ok (descs ++ ds) ∧ ds.length = custom.length := by
  induction custom with
  | nil =>
    intro descs h
    exact ⟨[], by simp [appendCustomLoop], rfl⟩
  | cons ct rest ih =>
    intro descs h
    obtain ⟨n, hn⟩ := Option.isSome_iff_exists.mp (h ct (List.mem_cons_self ct rest))
    obtain ⟨ds, hds, hlen⟩ := ih (descs ++ [buildCustomDescriptionSome n ct])
      (fun c hc => h c (List.mem_cons_of_mem ct hc))
    refine ⟨buildCustomDescriptionSome n ct :: ds, ?_, by simp [hlen]⟩
    simp only [appendCustomLoop, buildCustomDescription, hn]
    rw [hds, List.append_assoc]
    rfl

/-- C7: descriptor building fails with a KeyError on the name key (the
typed failure the spec calls SchemaError) whenever a caller-supplied
custom descriptor entry lacks a name key, both at construction time
(get_table_descriptions) and on a later append
(add_custom_table_descriptions). -/
theorem claim_C7 {V : Type} (encode : List Char → V) (normalize : V → V)
    (introspected : List TableDescription) (st : RAGState V)
    (custom : List CustomTableSpec) (h : ∃ ct ∈ custom, ct.name = none) :
    get_table_descriptions introspected (some custom) = .error (.keyError (("name").toList)) ∧
    add_custom_table_descriptions encode normalize st custom
      = .error (.keyError (("name").toList)) := by
  constructor
  · exact appendCustomLoop_error custom introspected h
  · unfold add_custom_table_descriptions
    rw [appendCustomLoop_error custom st.table_descriptions h]

/-- C7, witness: a single custom entry lacking the name key makes both
construction and append fail. -/
theorem claim_C7_witness :
    get_table_descriptions [] (some [noNameSpec]) = .error (.keyError (("name").toList)) ∧
    add_custom_table_descriptions (fun t => t.length) id (RAGState.mk [] [])
      [noNameSpec] = .error (.keyError (("name").toList)) :=
  claim_C7 (fun t => t.length) id [] (RAGState.mk [] []) [noNameSpec]
    ⟨noNameSpec, List.mem_cons_self noNameSpec [], rfl⟩

/-- C9: after add_custom_table_descriptions returns normally (every new
entry has a name key), the descriptor list has grown by exactly the
number of new entries, the pre-existing descriptors are unchanged in
place, and the index is rebuilt over the entire list, so that index
slot i again holds the normalized embedding of the text description of
table_descriptions[i]. -/
theorem claim_C9 {V : Type} (encode : List Char → V) (normalize : V → V)
    (st : RAGState V) (new : List CustomTableSpec)
    (h : ∀ ct ∈ new, ct.name.isSome) :
    ∃ st2, add_custom_table_descriptions encode normalize st new = .ok st2 ∧
      st2.table_descriptions.length = st.table_descriptions.length + new.length ∧
      (∀ i, i < st.table_descriptions.length →
        st2.table_descriptions[i]? = st.table_descriptions[i]?) ∧
      st2.index.length = st2.table_descriptions.length ∧
      (∀ (i : Nat), st2.index[i]? =
        (st2.table_descriptions[i]?).map
          (fun (d : TableDescription) => normalize (encode d.text_description))) := by
  obtain ⟨ds, hds, hlen⟩ := appendCustomLoop_ok new st.table_descriptions h
  refine ⟨⟨st.table_descriptions ++ ds,
    build_index encode normalize (st.table_descriptions ++ ds)⟩, ?_, ?_, ?_, ?_, ?_⟩
  · unfold add_custom_table_descriptions
    rw [hds]
  · simp [hlen]
  · intro i hi
    show (st.table_descriptions ++ ds)[i]? = _
    rw [List.getElem?_append, if_pos hi]
  · show (build_index encode normalize (st.table_descriptions ++ ds)).length = _
    unfold build_index
    simp
  · intro i
    show (build_index encode normalize (st.table_descriptions ++ ds))[i]? = _
    unfold build_index
    rw [List.getElem?_map, List.getElem?_map, Option.map_map]
    rfl

/-- C9, witness: appending one well-formed custom entry to a one-element
state grows the list to two, keeps slot zero, and rebuilds the index in
step with the list. -/
theorem claim_C9_witness :
    (∀ ct ∈ [namedSpec], ct.name.isSome) ∧
    (∃ st2, add_custom_table_descriptions (fun t => t.length) id
        (RAGState.mk [testDesc] [17]) [namedSpec] = .ok st2 ∧
      st2.table_descriptions.length
        = (RAGState.mk [testDesc] ([17] : List Nat)).table_descriptions.length
          + ([namedSpec] : List CustomTableSpec).length ∧
      (∀ i, i < (RAGState.mk [testDesc] ([17] : List Nat)).table_descriptions.length →
        st2.table_descriptions[i]?
          = (RAGState.mk [testDesc] ([17] : List Nat)).table_descriptions[i]?) ∧
      st2.index.length = st2.table_descriptions.length ∧
      (∀ (i : Nat), st2.index[i]? =
        (st2.table_descriptions[i]?).map
          (fun (d : TableDescription) => d.text_description.length))) :=
  ⟨by decide,
   claim_C9 (fun t => t.length) id (RAGState.mk [testDesc] [17]) [namedSpec] (by decide)⟩

/-- C1: whenever retrieval succeeds with a non-empty list and generation
succeeds, if the safety gate reports is_valid false for the generated
SQL then process_query returns the message naming the rejected SQL, and
the execution step validate_and_execute is never invoked in that run
(the invocation flag of the run is false). -/
theorem claim_C1 (env : AgentEnv) (ts : List (TableDescription × Rat)) (sql : List Char)
    (hret : retrieve_relevant_tables env.table_descriptions env.search_indices
      env.search_scores 3 (1 / 4) = .ok ts)
    (hts : ts.isEmpty = false)
    (hgen : env.generate_sql = .ok sql)
    (hval : (validate_and_sanitize_query sql).1 = false) :
    process_query env =
      (.ok ((("Generated SQL query contains potentially dangerous operations: ").toList)
        ++ sql), false) := by
  unfold process_query process_query_body
  simp only [hret, hts, hgen, hval, Bool.false_eq_true, if_false]

/-- C1, witness: a concrete run whose generated SQL is a DROP statement;
the run returns the dangerous-operations message and never invokes
execution. -/
theorem claim_C1_witness :
    (retrieve_relevant_tables testEnv.table_descriptions testEnv.search_indices
      testEnv.search_scores 3 (1 / 4) = .ok [(testDesc, 1)]) ∧
    (([(testDesc, (1 : Rat))]).isEmpty = false) ∧
    (testEnv.generate_sql = .ok (("DROP TABLE employees").toList)) ∧
    ((validate_and_sanitize_query (("DROP TABLE employees").toList)).1 = false) ∧
    process_query testEnv =
      (.ok ((("Generated SQL query contains potentially dangerous operations: ").toList)
        ++ (("DROP TABLE employees").toList)), false) :=
  ⟨rfl, rfl, rfl, by decide,
   claim_C1 testEnv [(testDesc, 1)] (("DROP TABLE employees").toList) rfl rfl rfl (by decide)⟩

/-- C8: process_query never raises; for every oracle environment the
result is an ok string (exceptions raised by retrieval or generation
reach the outer boundary and are rendered as error strings; execution
catches its own failures internally). -/
theorem claim_C8 (env : AgentEnv) : ∃ s, (process_query env).1 = Except.ok s := by
  unfold process_query
  rcases hb : process_query_body env with ⟨r, ex⟩
  cases r with
  | error e => exact ⟨_, rfl⟩
  | ok s => exact ⟨s, rfl⟩
